import Mathlib

/-!
Shallow embedding of `src/screenshot.py`, a Selenium-driven survey automation
script.  Browser state, screenshots and the remote completion API are modelled
as explicit oracles; the script's side effects are recorded in an explicit
trace (`Effect` list) threaded through the functions in the order the Python
code performs them.  Machine-level details that no claim depends on (actual
pixel data, base64 payloads, network transport) are abstracted to plain
strings or dimension records supplied by the environment.
-/

namespace Survey

/-- Python whitespace characters stripped by `int()` / `str.strip()`. -/
def isWsChar (c : Char) : Bool :=
  c = ' ' || c = '\t' || c = '\n' || c = '\r' || c = '\x0b' || c = '\x0c'

/-- Strip leading and trailing whitespace from a character list. -/
def stripWs (cs : List Char) : List Char :=
  ((cs.dropWhile isWsChar).reverse.dropWhile isWsChar).reverse

/-- Parse a non-empty all-digit character list as a natural number. -/
def digitsVal : List Char → Option Nat
  | [] => none
  | cs => cs.foldl
      (fun acc c =>
        match acc with
        | none => none
        | some n => if c.isDigit then some (n * 10 + (c.toNat - 48)) else none)
      (some 0)

/-- Model of Python `int(s)` on a string: strips whitespace, allows an
optional sign, then requires a non-empty run of decimal digits; any other
input raises `ValueError`, modelled as `none`. -/
def pyInt (s : String) : Option Int :=
  match stripWs s.data with
  | [] => none
  | c :: rest =>
    if c = '-' then (digitsVal rest).map (fun n => -(n : Int))
    else if c = '+' then (digitsVal rest).map (fun n => (n : Int))
    else (digitsVal (c :: rest)).map (fun n => (n : Int))

/-- Model of Python list indexing `xs[i]` for a list of length `len`:
returns the resolved non-negative index, `none` when the access raises
`IndexError`.  Negative indices count from the end, as in Python. -/
def pyIdx (len : Nat) (i : Int) : Option Nat :=
  if 0 ≤ i then
    if i < (len : Int) then some i.toNat else none
  else
    if -i ≤ (len : Int) then some ((len : Int) + i).toNat else none

/-- `answer_survey_choice` posts the message thread to the completion API and
runs `int(...)` on the reply content; the network reply is an oracle input. -/
def answer_survey_choice (reply : String) : Option Int :=
  pyInt reply

/-- `answer_survey_other` posts the message thread to the completion API and
returns the reply content verbatim. -/
def answer_survey_other (reply : String) : String :=
  reply

/-! ### Screenshots and image stitching -/

/-- Dimensions of an image file (`PIL.Image` size). -/
structure Img where
  width : Nat
  height : Nat
deriving DecidableEq

/-- Result of `stitch_images_vertically`: output canvas dimensions and the
`(x, y)` paste position of each input image, in input order. -/
structure Stitched where
  width : Nat
  height : Nat
  pastes : List (Nat × Nat)
deriving DecidableEq

/-- The paste loop of `stitch_images_vertically`: each image is pasted at
`(0, y_offset)` and `y_offset` is advanced by the image's height. -/
def pasteLoop : List Img → Nat → List (Nat × Nat)
  | [], _ => []
  | i :: rest, y => (0, y) :: pasteLoop rest (y + i.height)

/-- `stitch_images_vertically`: on an empty list the `zip(*...)` unpacking
raises (`none`); otherwise the canvas is `max(widths) × sum(heights)` and
images are pasted top-to-bottom in input order. -/
def stitch_images_vertically (imgs : List Img) : Option Stitched :=
  match imgs with
  | [] => none
  | i0 :: rest =>
    let total_height := ((i0 :: rest).map Img.height).sum
    let max_width := rest.foldl (fun a i => Nat.max a i.width) i0.width
    some ⟨max_width, total_height, pasteLoop (i0 :: rest) 0⟩

/-- The `while True` body of `take_screenshots_scroll`: save a screenshot at
the current offset `y`, scroll (the page oracle `f` gives the resulting
`window.pageYOffset`), and stop when the offset did not change.  `fuel`
bounds the number of iterations; running out models divergence (`none`). -/
def scrollGo (f : Nat → Nat) : Nat → Nat → List Nat → Option (List Nat)
  | 0, _, _ => none
  | fuel + 1, y, acc =>
    let acc2 := acc ++ [y]
    let y2 := f y
    if y2 = y then some acc2 else scrollGo f fuel y2 acc2

/-- `take_screenshots_scroll`: starting at the top of the page (offset 0,
matching `last_height = 0`), returns the list of offsets at which screenshots
were saved, in order. -/
def take_screenshots_scroll (f : Nat → Nat) (fuel : Nat) : Option (List Nat) :=
  scrollGo f fuel 0 []

/-! ### Questions, messages, DOM actions and the effect trace -/

/-- The five question categories recognised by `fill_survey`, keyed by DOM
class or tag: `cbc_task`, `select`, `question numeric`, `response_column`,
`textarea`. -/
inductive QType
  | cbc_task
  | selectTag
  | questionNumeric
  | responseColumn
  | textareaTag
deriving DecidableEq

/-- A question element found on the page: its category, its `innerHTML` and
`outerHTML`, its on-screen location, and the number of
`task_select_button` children (relevant to `cbc_task` elements). -/
structure Question where
  qtype : QType
  innerHTML : String
  outerHTML : String
  locY : Int
  locX : Int
  numButtons : Nat
deriving DecidableEq

/-- One part of a multi-part user message: an image-url part or a text part. -/
inductive ContentPart
  | imageURL (url : String)
  | textPart (t : String)
deriving DecidableEq

/-- A message body: either a plain string or a list of content parts. -/
inductive MContent
  | str (s : String)
  | parts (l : List ContentPart)
deriving DecidableEq

/-- A chat message in the `messages` thread. -/
structure Message where
  role : String
  body : MContent
deriving DecidableEq

/-- The per-question API oracle: `reply` is the raw content string returned
by the completion API for the question, `summary` is the string returned by
`summarize_answer`. -/
structure Api where
  reply : String
  summary : String

/-- A DOM manipulation performed to inject an answer. -/
inductive DomAction
  | clickTaskButton (idx : Int)
  | selectByValue (v : String)
  | sendKeysInput (s : String)
  | clickElement
  | sendKeysTextarea (s : String)
deriving DecidableEq

/-- An externally visible effect of the script, in the order performed. -/
inductive Effect
  | saveScreenshot (offset : Nat)
  | saveStitched (w : Nat) (h : Nat)
  | apiChoiceCall (msgs : List Message)
  | apiOtherCall (msgs : List Message)
  | apiSummaryCall (html : String) (answer : String)
  | dom (a : DomAction)
  | writeMessagesJson (msgs : List Message)
  | clickNextButton
deriving DecidableEq

/-- The f-string wrapping each question's HTML before it is sent to the API. -/
def questionPrompt (h : String) : String :=
  h ++ " \n\n Answer this question as if you were the respondent. Only return your answer."

/-- The HTML attribute each branch reads: `innerHTML` for `cbc_task`,
`response_column` and `textarea`, `outerHTML` for `select` and
`question numeric`. -/
def htmlOf (q : Question) : String :=
  match q.qtype with
  | QType.cbc_task => q.innerHTML
  | QType.selectTag => q.outerHTML
  | QType.questionNumeric => q.outerHTML
  | QType.responseColumn => q.innerHTML
  | QType.textareaTag => q.innerHTML

/-- One iteration of the per-question loop body (lines 244-398): append the
question prompt to `content`, append the user message, call the API
(`answer_survey_choice` for `cbc_task` / `select` / `response_column`,
`answer_survey_other` for `question numeric` / `textarea`), drop the user
message again, reset `content`, append the assistant summary, and perform
the branch's DOM action.  `none` models an uncaught exception (`int()` on a
non-integer API reply). -/
def processQuestion (q : Question) (a : Api) (msgs : List Message)
    (content : List ContentPart) (effs : List Effect) :
    Option (List Message × List ContentPart × List Effect) :=
  match q.qtype with
  | QType.cbc_task =>
    let html_question := q.innerHTML
    let content1 := content ++ [ContentPart.textPart (questionPrompt html_question)]
    let msgs1 := msgs ++ [⟨"user", MContent.parts content1⟩]
    let effs1 := effs ++ [Effect.apiChoiceCall msgs1]
    match answer_survey_choice a.reply with
    | none => none
    | some answer =>
      let msgs2 := msgs1.dropLast
      let effs2 := effs1 ++ [Effect.apiSummaryCall html_question (toString answer)]
      let msgs3 := msgs2 ++ [⟨"assistant", MContent.str a.summary⟩]
      let effs3 := effs2 ++ [Effect.dom (DomAction.clickTaskButton (answer - 1))]
      some (msgs3, [], effs3)
  | QType.selectTag =>
    let html_question := q.outerHTML
    let content1 := content ++ [ContentPart.textPart (questionPrompt html_question)]
    let msgs1 := msgs ++ [⟨"user", MContent.parts content1⟩]
    let effs1 := effs ++ [Effect.apiChoiceCall msgs1]
    match answer_survey_choice a.reply with
    | none => none
    | some answer =>
      let msgs2 := msgs1.dropLast
      let effs2 := effs1 ++ [Effect.apiSummaryCall html_question (toString answer)]
      let msgs3 := msgs2 ++ [⟨"assistant", MContent.str a.summary⟩]
      let effs3 := effs2 ++ [Effect.dom (DomAction.selectByValue (toString answer))]
      some (msgs3, [], effs3)
  | QType.questionNumeric =>
    let html_question := q.outerHTML
    let content1 := content ++ [ContentPart.textPart (questionPrompt html_question)]
    let msgs1 := msgs ++ [⟨"user", MContent.parts content1⟩]
    let effs1 := effs ++ [Effect.apiOtherCall msgs1]
    let answer := answer_survey_other a.reply
    let msgs2 := msgs1.dropLast
    let effs2 := effs1 ++ [Effect.apiSummaryCall html_question answer]
    let msgs3 := msgs2 ++ [⟨"assistant", MContent.str a.summary⟩]
    let effs3 := effs2 ++ [Effect.dom (DomAction.sendKeysInput answer)]
    some (msgs3, [], effs3)
  | QType.responseColumn =>
    let html_question := q.innerHTML
    let content1 := content ++ [ContentPart.textPart (questionPrompt html_question)]
    let msgs1 := msgs ++ [⟨"user", MContent.parts content1⟩]
    let effs1 := effs ++ [Effect.apiChoiceCall msgs1]
    match answer_survey_choice a.reply with
    | none => none
    | some answer =>
      let msgs2 := msgs1.dropLast
      let effs2 := effs1 ++ [Effect.apiSummaryCall html_question (toString answer)]
      let msgs3 := msgs2 ++ [⟨"assistant", MContent.str a.summary⟩]
      let effs3 := effs2 ++ [Effect.dom DomAction.clickElement]
      some (msgs3, [], effs3)
  | QType.textareaTag =>
    let html_question := q.innerHTML
    let content1 := content ++ [ContentPart.textPart (questionPrompt html_question)]
    let msgs1 := msgs ++ [⟨"user", MContent.parts content1⟩]
    let effs1 := effs ++ [Effect.apiOtherCall msgs1]
    let answer := answer_survey_other a.reply
    let msgs2 := msgs1.dropLast
    let effs2 := effs1 ++ [Effect.apiSummaryCall html_question answer]
    let msgs3 := msgs2 ++ [⟨"assistant", MContent.str a.summary⟩]
    let effs3 := effs2 ++ [Effect.dom (DomAction.sendKeysTextarea answer)]
    some (msgs3, [], effs3)

/-- The `get_position` sort key: `(location['y'], location['x'])`. -/
def get_position (q : Question) : Int × Int :=
  (q.locY, q.locX)

/-- Lexicographic tuple comparison used by Python's `sorted` on the
`(y, x)` keys. -/
def posLe (a b : Question) : Bool :=
  decide (a.locY < b.locY ∨ (a.locY = b.locY ∧ a.locX ≤ b.locX))

/-- `sorted(all_questions, key=get_position)`: a stable sort by the
`(y, x)` position key. -/
def sortQuestions (qs : List Question) : List Question :=
  qs.mergeSort posLe

/-- The per-page question loop `for i in range(total_questions)`, applied to
the position-sorted elements; the API oracle is consulted once per question,
indexed by the running question counter. -/
def processQuestions (api : Nat → Api) :
    List Question → Nat → List Message → List ContentPart → List Effect →
    Option (List Message × List ContentPart × List Effect)
  | [], _, msgs, content, effs => some (msgs, content, effs)
  | q :: rest, i, msgs, content, effs =>
    match processQuestion q (api i) msgs content effs with
    | none => none
    | some (m, c, e) => processQuestions api rest (i + 1) m c e

/-- The environment of one survey page: the scroll oracle and its fuel,
the dimensions of the screenshot saved at each offset, the base64 encoding
of the stitched image, the question elements found on the page, the API
oracle, and whether the `next_button` lookup succeeds. -/
structure PageEnv where
  scroll : Nat → Nat
  scrollFuel : Nat
  imgOf : Nat → Img
  b64 : String
  questions : List Question
  api : Nat → Api
  hasNext : Bool

/-- The image-url content part built from the stitched page screenshot. -/
def pageImagePart (p : PageEnv) : ContentPart :=
  ContentPart.imageURL ("data:image/jpeg;base64," ++ p.b64)

/-- One iteration of the `while True` page loop of `fill_survey`
(lines 196-415): take scrolling screenshots, stitch them, put the stitched
image into the fresh `content` buffer, sort the questions by position and
answer each in turn (or, with no questions, append the screenshot-only user
message), dump `messages` to `messages.json`, then click `next_button`.
The returned Bool is `true` when the loop continues to the next page. -/
def processPage (p : PageEnv) (msgs : List Message) (effs : List Effect) :
    Option (List Message × List Effect × Bool) :=
  match take_screenshots_scroll p.scroll p.scrollFuel with
  | none => none
  | some shots =>
    let effs1 := effs ++ shots.map Effect.saveScreenshot
    match stitch_images_vertically (shots.map p.imgOf) with
    | none => none
    | some st =>
      let effs2 := effs1 ++ [Effect.saveStitched st.width st.height]
      let content0 := [pageImagePart p]
      let sorted_elements := sortQuestions p.questions
      let total_questions := p.questions.length
      if total_questions = 0 then
        let msgs1 := msgs ++ [⟨"user", MContent.parts content0⟩]
        let effs3 := effs2 ++ [Effect.writeMessagesJson msgs1]
        if p.hasNext then some (msgs1, effs3 ++ [Effect.clickNextButton], true)
        else some (msgs1, effs3, false)
      else
        match processQuestions p.api sorted_elements 0 msgs content0 effs2 with
        | none => none
        | some (m, _, e) =>
          let effs3 := e ++ [Effect.writeMessagesJson m]
          if p.hasNext then some (m, effs3 ++ [Effect.clickNextButton], true)
          else some (m, effs3, false)

/-- The `while True` page loop of `fill_survey`: pages are supplied by the
environment in order; the loop stops after the first page whose
`next_button` lookup fails, and an uncaught exception (`none`) aborts the
whole run. -/
def fillSurvey : List PageEnv → List Message → List Effect →
    Option (List Message × List Effect)
  | [], msgs, effs => some (msgs, effs)
  | p :: rest, msgs, effs =>
    match processPage p msgs effs with
    | none => none
    | some (m, e, true) => fillSurvey rest m e
    | some (m, e, false) => some (m, e)

/-- The top-level `for index, row in data.iterrows()` loop: one `fillSurvey`
run per CSV row, strictly in sequence, each with its own fresh message
thread; an uncaught exception aborts the whole script. -/
def runUsers : List (List PageEnv × List Message) → List Effect →
    Option (List Effect)
  | [], effs => some effs
  | (pages, msgs0) :: rest, effs =>
    match fillSurvey pages msgs0 effs with
    | none => none
    | some (_, e) => runUsers rest e

/-! ### Trace extractors and structural predicates -/

/-- The content-part list of the user message carried by a completion-API
call effect (the last message of the posted thread), if any. -/
def reqContentOf : Effect → Option (List ContentPart)
  | Effect.apiChoiceCall ms =>
    match ms.getLast? with
    | some ⟨_, MContent.parts c⟩ => some c
    | _ => none
  | Effect.apiOtherCall ms =>
    match ms.getLast? with
    | some ⟨_, MContent.parts c⟩ => some c
    | _ => none
  | _ => none

/-- The sequence of content-part lists sent to the completion API, in call
order. -/
def requestTrace (effs : List Effect) : List (List ContentPart) :=
  effs.filterMap reqContentOf

/-- The HTML argument of a `summarize_answer` call effect, if any. -/
def summaryOf : Effect → Option String
  | Effect.apiSummaryCall h _ => some h
  | _ => none

/-- The sequence of question HTMLs passed to `summarize_answer`, in call
order: one per processed question, in processing order. -/
def summaryTrace (effs : List Effect) : List String :=
  effs.filterMap summaryOf

/-- The DOM action injected by a successful `processQuestion` run is the
last effect it appended. -/
def emittedDom (r : Option (List Message × List ContentPart × List Effect)) :
    Option DomAction :=
  match r with
  | none => none
  | some (_, _, e) =>
    match e.getLast? with
    | some (Effect.dom a) => some a
    | _ => none

/-- The branch (by question category) that emits each DOM-action shape. -/
def domTag : DomAction → QType
  | DomAction.clickTaskButton _ => QType.cbc_task
  | DomAction.selectByValue _ => QType.selectTag
  | DomAction.sendKeysInput _ => QType.questionNumeric
  | DomAction.clickElement => QType.responseColumn
  | DomAction.sendKeysTextarea _ => QType.textareaTag

/-- The effect block of one answered question: one completion-API call, one
summary call, one DOM action, in that order. -/
def IsQBlock (b : List Effect) : Prop :=
  ∃ ms h ans act,
    b = [Effect.apiChoiceCall ms, Effect.apiSummaryCall h ans, Effect.dom act] ∨
    b = [Effect.apiOtherCall ms, Effect.apiSummaryCall h ans, Effect.dom act]

/-- The effect trace of one completed page iteration: screenshots, then the
stitched-image save, then the per-question blocks, then the `messages.json`
dump, then (when the loop continues) the `next_button` click. -/
def IsPageTrace (t : List Effect) : Prop :=
  ∃ (shots : List Nat) (w h : Nat) (blocks : List (List Effect))
    (m : List Message) (tail : List Effect),
    t = shots.map Effect.saveScreenshot ++ [Effect.saveStitched w h] ++
        blocks.flatten ++ [Effect.writeMessagesJson m] ++ tail ∧
    (∀ b ∈ blocks, IsQBlock b) ∧ (tail = [] ∨ tail = [Effect.clickNextButton])

/-- The assistant messages appended by a run of `processQuestions` starting
at question counter `i`, one per question. -/
def assistantsFrom (api : Nat → Api) (i : Nat) : Nat → List Message
  | 0 => []
  | k + 1 => ⟨"assistant", MContent.str (api i).summary⟩ :: assistantsFrom api (i + 1) k

/-- The content-part lists sent to the API for the questions of one page, in
order: the first request still holds the initial `content` buffer (with the
page screenshot), later requests only the question text, the buffer having
been reset. -/
def pageRequestContents (content : List ContentPart) : List Question → List (List ContentPart)
  | [] => []
  | q :: rest =>
    (content ++ [ContentPart.textPart (questionPrompt (htmlOf q))]) ::
      pageRequestContents [] rest

/-! ### Characterization of one question step -/

/-- A successful `processQuestion` step appends exactly one user message,
calls the API, removes that user message again, appends one assistant
message, and appends the effects: API call, summary call, DOM action. -/
theorem processQuestion_shape {q : Question} {a : Api} {msgs : List Message}
    {content : List ContentPart} {effs : List Effect}
    {r : List Message × List ContentPart × List Effect}
    (h : processQuestion q a msgs content effs = some r) :
    ∃ callE ansStr act,
      r = (msgs ++ [⟨"assistant", MContent.str a.summary⟩], ([] : List ContentPart),
           effs ++ [callE, Effect.apiSummaryCall (htmlOf q) ansStr, Effect.dom act]) ∧
      (callE = Effect.apiChoiceCall (msgs ++
          [⟨"user", MContent.parts (content ++
            [ContentPart.textPart (questionPrompt (htmlOf q))])⟩]) ∨
       callE = Effect.apiOtherCall (msgs ++
          [⟨"user", MContent.parts (content ++
            [ContentPart.textPart (questionPrompt (htmlOf q))])⟩])) := by
  cases hq : q.qtype <;>
    simp only [processQuestion, hq, htmlOf, answer_survey_other] at h ⊢
  case cbc_task =>
    cases hc : answer_survey_choice a.reply with
    | none => rw [hc] at h; simp at h
    | some n =>
      rw [hc] at h
      simp only [Option.some.injEq] at h
      refine ⟨_, toString n, DomAction.clickTaskButton (n - 1), ?_, Or.inl rfl⟩
      rw [← h]; simp
  case selectTag =>
    cases hc : answer_survey_choice a.reply with
    | none => rw [hc] at h; simp at h
    | some n =>
      rw [hc] at h
      simp only [Option.some.injEq] at h
      refine ⟨_, toString n, DomAction.selectByValue (toString n), ?_, Or.inl rfl⟩
      rw [← h]; simp
  case questionNumeric =>
    simp only [Option.some.injEq] at h
    refine ⟨_, a.reply, DomAction.sendKeysInput a.reply, ?_, Or.inr rfl⟩
    rw [← h]; simp
  case responseColumn =>
    cases hc : answer_survey_choice a.reply with
    | none => rw [hc] at h; simp at h
    | some n =>
      rw [hc] at h
      simp only [Option.some.injEq] at h
      refine ⟨_, toString n, DomAction.clickElement, ?_, Or.inl rfl⟩
      rw [← h]; simp
  case textareaTag =>
    simp only [Option.some.injEq] at h
    refine ⟨_, a.reply, DomAction.sendKeysTextarea a.reply, ?_, Or.inr rfl⟩
    rw [← h]; simp

/-- `reqContentOf` of a question block's API-call effect: the last message
of the posted thread is the user message just appended, so the extracted
request content is the `content` buffer plus the question prompt. -/
theorem reqContentOf_call {msgs : List Message} {c : List ContentPart}
    {callE : Effect}
    (h : callE = Effect.apiChoiceCall (msgs ++ [⟨"user", MContent.parts c⟩]) ∨
         callE = Effect.apiOtherCall (msgs ++ [⟨"user", MContent.parts c⟩])) :
    reqContentOf callE = some c := by
  cases h <;> subst_vars <;> simp [reqContentOf, List.getLast?_concat]

/-- Full characterization of a successful run of the per-question loop:
the message thread grows by exactly one assistant message per question, the
effect trace grows by one three-effect block per question, the API request
contents follow `pageRequestContents`, and the summary calls list the
questions' HTML in processing order. -/
theorem processQuestions_spec {api : Nat → Api} :
    ∀ {qs : List Question} {i : Nat} {msgs : List Message}
      {content : List ContentPart} {effs : List Effect} {m : List Message}
      {c : List ContentPart} {e : List Effect},
      processQuestions api qs i msgs content effs = some (m, c, e) →
      m = msgs ++ assistantsFrom api i qs.length ∧
      (∃ blocks : List (List Effect),
        e = effs ++ blocks.flatten ∧ blocks.length = qs.length ∧
        (∀ b ∈ blocks, IsQBlock b)) ∧
      requestTrace e = requestTrace effs ++ pageRequestContents content qs ∧
      summaryTrace e = summaryTrace effs ++ qs.map htmlOf := by
  intro qs
  induction qs with
  | nil =>
    intro i msgs content effs m c e h
    simp only [processQuestions, Option.some.injEq, Prod.mk.injEq] at h
    obtain ⟨h1, h2, h3⟩ := h
    subst h1; subst h3
    exact ⟨by simp [assistantsFrom], ⟨[], by simp⟩, by simp [pageRequestContents],
      by simp⟩
  | cons q rest ih =>
    intro i msgs content effs m c e h
    simp only [processQuestions] at h
    cases hp : processQuestion q (api i) msgs content effs with
    | none => rw [hp] at h; simp at h
    | some r =>
      obtain ⟨callE, ansStr, act, hr, hcall⟩ := processQuestion_shape hp
      rw [hp, hr] at h
      obtain ⟨hm, ⟨blocks, he, hbl, hb⟩, hreq, hsum⟩ := ih h
      have hcall2 : reqContentOf callE =
          some (content ++ [ContentPart.textPart (questionPrompt (htmlOf q))]) :=
        reqContentOf_call hcall
      refine ⟨?_, ⟨[callE, Effect.apiSummaryCall (htmlOf q) ansStr, Effect.dom act] ::
        blocks, ?_, by simp [hbl], ?_⟩, ?_, ?_⟩
      · rw [hm]
        simp [List.length_cons, assistantsFrom, List.append_assoc]
      · rw [he]; simp
      · intro b hbmem
        rcases List.mem_cons.mp hbmem with hbeq | hbmem
        · subst hbeq
          rcases hcall with hc | hc <;> subst hc
          · exact ⟨_, htmlOf q, ansStr, act, Or.inl rfl⟩
          · exact ⟨_, htmlOf q, ansStr, act, Or.inr rfl⟩
        · exact hb b hbmem
      · rw [hreq]
        simp only [requestTrace, List.filterMap_append, List.filterMap_cons,
          hcall2, pageRequestContents]
        simp [reqContentOf, List.append_assoc]
      · rw [hsum]
        rcases hcall with hc | hc <;> subst hc <;>
          simp [summaryTrace, List.filterMap_append, List.filterMap_cons,
            summaryOf, List.append_assoc]

/-! ### Counting page-level effects -/

/-- Is this effect the `messages.json` dump? -/
def isJsonEff : Effect → Bool
  | Effect.writeMessagesJson _ => true
  | _ => false

/-- Is this effect the `next_button` click? -/
def isNextEff : Effect → Bool
  | Effect.clickNextButton => true
  | _ => false

/-- Number of `messages.json` dumps in a trace. -/
def countJson (effs : List Effect) : Nat :=
  effs.countP isJsonEff

/-- Number of `next_button` clicks in a trace. -/
def countNext (effs : List Effect) : Nat :=
  effs.countP isNextEff

/-- A predicate that ignores API-call, summary and DOM effects counts zero
over the blocks of answered questions. -/
theorem qblocks_countP (pr : Effect → Bool) {blocks : List (List Effect)}
    (hb : ∀ b ∈ blocks, IsQBlock b)
    (h1 : ∀ ms, pr (Effect.apiChoiceCall ms) = false)
    (h2 : ∀ ms, pr (Effect.apiOtherCall ms) = false)
    (h3 : ∀ s t, pr (Effect.apiSummaryCall s t) = false)
    (h4 : ∀ a, pr (Effect.dom a) = false) :
    List.countP pr blocks.flatten = 0 := by
  induction blocks with
  | nil => simp
  | cons b bs ih =>
    have ihh := ih (fun x hx => hb x (List.mem_cons_of_mem b hx))
    obtain ⟨ms, s, t, act, hbs | hbs⟩ := hb b (List.mem_cons_self b bs) <;>
      subst hbs <;>
      rw [List.flatten_cons, List.countP_append, ihh] <;>
      simp [List.countP_cons, h1, h2, h3, h4]

/-- A predicate that ignores screenshot effects counts zero over the
screenshot prefix of a page trace. -/
theorem screens_countP (pr : Effect → Bool)
    (h : ∀ o, pr (Effect.saveScreenshot o) = false) (shots : List Nat) :
    List.countP pr (shots.map Effect.saveScreenshot) = 0 := by
  induction shots with
  | nil => simp
  | cons s ss ih => simp [List.countP_cons, h, ih]

/-- API-request extraction distributes over trace concatenation. -/
theorem requestTrace_append (a b : List Effect) :
    requestTrace (a ++ b) = requestTrace a ++ requestTrace b :=
  List.filterMap_append a b reqContentOf

/-- Summary extraction distributes over trace concatenation. -/
theorem summaryTrace_append (a b : List Effect) :
    summaryTrace (a ++ b) = summaryTrace a ++ summaryTrace b :=
  List.filterMap_append a b summaryOf

/-- API-request extraction ignores screenshot effects. -/
theorem requestTrace_screens (shots : List Nat) :
    requestTrace (shots.map Effect.saveScreenshot) = [] := by
  induction shots with
  | nil => simp [requestTrace]
  | cons s ss ih => simp [requestTrace, reqContentOf, List.filterMap_cons, ih]

/-- Summary extraction ignores screenshot effects. -/
theorem summaryTrace_screens (shots : List Nat) :
    summaryTrace (shots.map Effect.saveScreenshot) = [] := by
  induction shots with
  | nil => simp [summaryTrace]
  | cons s ss ih => simp [summaryTrace, summaryOf, List.filterMap_cons, ih]

/-! ### Characterization of one page iteration -/

/-- Full characterization of a successful page iteration of `fill_survey`:
the loop continues iff the `next_button` lookup succeeds, the new effects
form a structured page trace, the API requests of the page follow
`pageRequestContents` starting from the screenshot-only buffer, the summary
calls list the position-sorted questions in order, and exactly one
`messages.json` dump (and at most one `next_button` click) is added. -/
theorem processPage_spec {p : PageEnv} {msgs : List Message} {effs : List Effect}
    {m : List Message} {e : List Effect} {cont : Bool}
    (h : processPage p msgs effs = some (m, e, cont)) :
    cont = p.hasNext ∧
    (∃ t, e = effs ++ t ∧ IsPageTrace t) ∧
    (p.questions ≠ [] →
      requestTrace e = requestTrace effs ++
        pageRequestContents [pageImagePart p] (sortQuestions p.questions)) ∧
    (p.questions = [] → requestTrace e = requestTrace effs) ∧
    summaryTrace e = summaryTrace effs ++ (sortQuestions p.questions).map htmlOf ∧
    countJson e = countJson effs + 1 ∧
    countNext e = countNext effs + (if p.hasNext then 1 else 0) := by
  unfold processPage at h
  cases hts : take_screenshots_scroll p.scroll p.scrollFuel with
  | none => rw [hts] at h; simp at h
  | some shots =>
    rw [hts] at h
    dsimp only at h
    cases hst : stitch_images_vertically (shots.map p.imgOf) with
    | none => rw [hst] at h; simp at h
    | some st =>
      rw [hst] at h
      dsimp only at h
      by_cases hq0 : p.questions.length = 0
      · have hqnil : p.questions = [] := List.length_eq_zero.mp hq0
        rw [if_pos hq0] at h
        have hsort : sortQuestions p.questions = [] := by
          rw [hqnil]; simp [sortQuestions]
        cases hnext : p.hasNext <;> rw [hnext] at h <;>
          simp only [if_neg Bool.false_ne_true, if_pos rfl, Option.some.injEq,
            Prod.mk.injEq, Bool.false_eq_true, if_false, if_true] at h <;>
          obtain ⟨hm, he, hc⟩ := h <;> subst he <;> subst hc
        · refine ⟨rfl, ⟨shots.map Effect.saveScreenshot ++ [Effect.saveStitched st.width st.height] ++
            [Effect.writeMessagesJson (msgs ++ [⟨"user", MContent.parts [pageImagePart p]⟩])],
            by simp [List.append_assoc], shots, st.width, st.height, [],
            msgs ++ [⟨"user", MContent.parts [pageImagePart p]⟩], [],
            by simp, by simp, Or.inl rfl⟩, fun hne => absurd hqnil hne, fun _ => ?_,
            ?_, ?_, ?_⟩
          · simp [requestTrace, List.filterMap_append, reqContentOf,
              requestTrace_screens shots]
          · rw [hsort]
            simp [summaryTrace, List.filterMap_append, summaryOf,
              summaryTrace_screens shots]
          · simp [countJson, List.countP_append, List.countP_cons, isJsonEff,
              screens_countP isJsonEff (fun _ => rfl) shots]
          · simp [countNext, List.countP_append, List.countP_cons, isNextEff,
              screens_countP isNextEff (fun _ => rfl) shots]
        · refine ⟨rfl, ⟨shots.map Effect.saveScreenshot ++ [Effect.saveStitched st.width st.height] ++
            [Effect.writeMessagesJson (msgs ++ [⟨"user", MContent.parts [pageImagePart p]⟩])] ++
            [Effect.clickNextButton],
            by simp [List.append_assoc], shots, st.width, st.height, [],
            msgs ++ [⟨"user", MContent.parts [pageImagePart p]⟩],
            [Effect.clickNextButton],
            by simp, by simp, Or.inr rfl⟩, fun hne => absurd hqnil hne, fun _ => ?_,
            ?_, ?_, ?_⟩
          · simp [requestTrace, List.filterMap_append, reqContentOf,
              requestTrace_screens shots]
          · rw [hsort]
            simp [summaryTrace, List.filterMap_append, summaryOf,
              summaryTrace_screens shots]
          · simp [countJson, List.countP_append, List.countP_cons, isJsonEff,
              screens_countP isJsonEff (fun _ => rfl) shots]
          · simp [countNext, List.countP_append, List.countP_cons, isNextEff,
              screens_countP isNextEff (fun _ => rfl) shots]
      · have hqne : p.questions ≠ [] := fun hc => hq0 (by rw [hc]; rfl)
        rw [if_neg hq0] at h
        cases hpq : processQuestions p.api (sortQuestions p.questions) 0 msgs
            [pageImagePart p]
            (effs ++ shots.map Effect.saveScreenshot ++ [Effect.saveStitched st.width st.height]) with
        | none => rw [hpq] at h; simp at h
        | some r =>
          obtain ⟨m1, c1, e1⟩ := r
          rw [hpq] at h
          obtain ⟨hm1, ⟨blocks, hbe, hbl, hb⟩, hreq, hsum⟩ := processQuestions_spec hpq
          cases hnext : p.hasNext <;> rw [hnext] at h <;>
            simp only [Option.some.injEq, Prod.mk.injEq, Bool.false_eq_true,
              if_false, if_true] at h <;>
            obtain ⟨hm, he, hc⟩ := h <;> subst he <;> subst hc
          · refine ⟨rfl, ⟨shots.map Effect.saveScreenshot ++ [Effect.saveStitched st.width st.height] ++
              blocks.flatten ++ [Effect.writeMessagesJson m1] ++ [],
              by rw [hbe]; simp [List.append_assoc], shots, st.width, st.height,
              blocks, m1, [], by simp, hb, Or.inl rfl⟩,
              fun _ => ?_, fun hnil => absurd hnil hqne, ?_, ?_, ?_⟩
            · simp only [requestTrace_append, hreq]
              simp [requestTrace, reqContentOf, requestTrace_screens shots]
            · simp only [summaryTrace_append, hsum]
              simp [summaryTrace, summaryOf, summaryTrace_screens shots]
            · rw [hbe]
              simp [countJson, List.countP_append, List.countP_cons, isJsonEff,
                screens_countP isJsonEff (fun _ => rfl) shots,
                qblocks_countP isJsonEff hb (fun _ => rfl) (fun _ => rfl)
                  (fun _ _ => rfl) (fun _ => rfl)]
            · rw [hbe]
              simp [countNext, List.countP_append, List.countP_cons, isNextEff,
                screens_countP isNextEff (fun _ => rfl) shots,
                qblocks_countP isNextEff hb (fun _ => rfl) (fun _ => rfl)
                  (fun _ _ => rfl) (fun _ => rfl)]
          · refine ⟨rfl, ⟨shots.map Effect.saveScreenshot ++ [Effect.saveStitched st.width st.height] ++
              blocks.flatten ++ [Effect.writeMessagesJson m1] ++ [Effect.clickNextButton],
              by rw [hbe]; simp [List.append_assoc], shots, st.width, st.height,
              blocks, m1, [Effect.clickNextButton], by simp, hb, Or.inr rfl⟩,
              fun _ => ?_, fun hnil => absurd hnil hqne, ?_, ?_, ?_⟩
            · simp only [requestTrace_append, hreq]
              simp [requestTrace, reqContentOf, requestTrace_screens shots]
            · simp only [summaryTrace_append, hsum]
              simp [summaryTrace, summaryOf, summaryTrace_screens shots]
            · rw [hbe]
              simp [countJson, List.countP_append, List.countP_cons, isJsonEff,
                screens_countP isJsonEff (fun _ => rfl) shots,
                qblocks_countP isJsonEff hb (fun _ => rfl) (fun _ => rfl)
                  (fun _ _ => rfl) (fun _ => rfl)]
            · rw [hbe]
              simp [countNext, List.countP_append, List.countP_cons, isNextEff,
                screens_countP isNextEff (fun _ => rfl) shots,
                qblocks_countP isNextEff hb (fun _ => rfl) (fun _ => rfl)
                  (fun _ _ => rfl) (fun _ => rfl)]

/-! ### The page loop and the outer user loop -/

/-- The effect trace of a completed `fillSurvey` run is the concatenation of
one structured page trace per processed page, in page order. -/
theorem fillSurvey_trace :
    ∀ {pages : List PageEnv} {msgs : List Message} {effs : List Effect}
      {m : List Message} {e : List Effect},
      fillSurvey pages msgs effs = some (m, e) →
      ∃ ts : List (List Effect), e = effs ++ ts.flatten ∧ ∀ t ∈ ts, IsPageTrace t := by
  intro pages
  induction pages with
  | nil =>
    intro msgs effs m e h
    simp only [fillSurvey, Option.some.injEq, Prod.mk.injEq] at h
    obtain ⟨h1, h2⟩ := h
    subst h2
    exact ⟨[], by simp, by simp⟩
  | cons p rest ih =>
    intro msgs effs m e h
    simp only [fillSurvey] at h
    cases hp : processPage p msgs effs with
    | none => rw [hp] at h; simp at h
    | some r =>
      obtain ⟨m1, e1, cont⟩ := r
      rw [hp] at h
      obtain ⟨hcont, ⟨t, ht, hpt⟩, _⟩ := processPage_spec hp
      cases cont with
      | true =>
        obtain ⟨ts, hts, htsall⟩ := ih h
        refine ⟨t :: ts, by rw [hts, ht]; simp, ?_⟩
        intro x hx
        rcases List.mem_cons.mp hx with hx | hx
        · subst hx; exact hpt
        · exact htsall x hx
      | false =>
        dsimp only at h
        simp only [Option.some.injEq, Prod.mk.injEq] at h
        obtain ⟨h1, h2⟩ := h
        subst h2
        exact ⟨[t], by rw [ht]; simp, by simp [hpt]⟩

/-- The effect trace of the whole multi-user run is likewise a concatenation
of structured page traces, user by user, in order. -/
theorem runUsers_trace :
    ∀ {users : List (List PageEnv × List Message)} {effs : List Effect}
      {e : List Effect},
      runUsers users effs = some e →
      ∃ ts : List (List Effect), e = effs ++ ts.flatten ∧ ∀ t ∈ ts, IsPageTrace t := by
  intro users
  induction users with
  | nil =>
    intro effs e h
    simp only [runUsers, Option.some.injEq] at h
    subst h
    exact ⟨[], by simp, by simp⟩
  | cons u rest ih =>
    intro effs e h
    obtain ⟨pages, msgs0⟩ := u
    simp only [runUsers] at h
    cases hf : fillSurvey pages msgs0 effs with
    | none => rw [hf] at h; simp at h
    | some r =>
      obtain ⟨m1, e1⟩ := r
      rw [hf] at h
      obtain ⟨ts1, ht1, hall1⟩ := fillSurvey_trace hf
      obtain ⟨ts2, ht2, hall2⟩ := ih h
      refine ⟨ts1 ++ ts2, by rw [ht2, ht1]; simp [List.flatten_append], ?_⟩
      intro x hx
      rcases List.mem_append.mp hx with hx | hx
      · exact hall1 x hx
      · exact hall2 x hx

/-- Once a page without a reachable `next_button` is hit, the pages behind
it are never touched: the loop's result is the same as if they were absent. -/
theorem fillSurvey_stop :
    ∀ {done : List PageEnv} {p : PageEnv} {rest : List PageEnv}
      {msgs : List Message} {effs : List Effect},
      (∀ q ∈ done, q.hasNext = true) → p.hasNext = false →
      fillSurvey (done ++ p :: rest) msgs effs =
        fillSurvey (done ++ [p]) msgs effs := by
  intro done
  induction done with
  | nil =>
    intro p rest msgs effs _ hp
    show fillSurvey (p :: rest) msgs effs = fillSurvey (p :: []) msgs effs
    simp only [fillSurvey]
    cases hpp : processPage p msgs effs with
    | none => rfl
    | some r =>
      obtain ⟨m1, e1, cont⟩ := r
      have hc : cont = false := by
        obtain ⟨hcont, _⟩ := processPage_spec hpp
        rw [hcont, hp]
      subst hc
      rfl
  | cons d done ih =>
    intro p rest msgs effs hdone hp
    show fillSurvey (d :: (done ++ p :: rest)) msgs effs =
      fillSurvey (d :: (done ++ [p])) msgs effs
    simp only [fillSurvey]
    cases hpp : processPage d msgs effs with
    | none => rfl
    | some r =>
      obtain ⟨m1, e1, cont⟩ := r
      have hc : cont = true := by
        obtain ⟨hcont, _⟩ := processPage_spec hpp
        rw [hcont]
        exact hdone d (List.mem_cons_self d done)
      subst hc
      exact ih (fun q hq => hdone q (List.mem_cons_of_mem d hq)) hp

/-- On the run that stops at page `p`, every processed page dumped
`messages.json` exactly once and clicked `next_button` exactly once (the
final page zero times): no retried operations. -/
theorem fillSurvey_counts :
    ∀ {done : List PageEnv} {p : PageEnv} {rest : List PageEnv}
      {msgs : List Message} {effs : List Effect} {m : List Message}
      {e : List Effect},
      (∀ q ∈ done, q.hasNext = true) → p.hasNext = false →
      fillSurvey (done ++ p :: rest) msgs effs = some (m, e) →
      countJson e = countJson effs + done.length + 1 ∧
      countNext e = countNext effs + done.length := by
  intro done
  induction done with
  | nil =>
    intro p rest msgs effs m e _ hp h
    rw [List.nil_append] at h
    simp only [fillSurvey] at h
    cases hpp : processPage p msgs effs with
    | none => rw [hpp] at h; simp at h
    | some r =>
      obtain ⟨m1, e1, cont⟩ := r
      rw [hpp] at h
      obtain ⟨hcont, _, _, _, _, hcj, hcn⟩ := processPage_spec hpp
      rw [hp] at hcont
      subst hcont
      dsimp only at h
      simp only [Option.some.injEq, Prod.mk.injEq] at h
      obtain ⟨h1, h2⟩ := h
      subst h2
      rw [hp] at hcn
      simp only [Bool.false_eq_true, if_false] at hcn
      exact ⟨by rw [hcj]; simp, by rw [hcn]; simp⟩
  | cons d done ih =>
    intro p rest msgs effs m e hdone hp h
    rw [List.cons_append] at h
    simp only [fillSurvey] at h
    cases hpp : processPage d msgs effs with
    | none => rw [hpp] at h; simp at h
    | some r =>
      obtain ⟨m1, e1, cont⟩ := r
      rw [hpp] at h
      obtain ⟨hcont, _, _, _, _, hcj, hcn⟩ := processPage_spec hpp
      have hd := hdone d (List.mem_cons_self d done)
      rw [hd] at hcont
      subst hcont
      obtain ⟨hj, hn⟩ := ih (fun q hq => hdone q (List.mem_cons_of_mem d hq)) hp h
      rw [hd] at hcn
      simp at hcn
      rw [hcj] at hj
      rw [hcn] at hn
      exact ⟨by rw [hj]; simp only [List.length_cons]; omega,
        by rw [hn]; simp only [List.length_cons]; omega⟩

/-! ### The scrolling screenshot loop -/

/-- Full characterization of the scroll loop: if scrolling first changes the
offset for `m` steps and then leaves it unchanged, then with enough fuel the
loop stops and the saved screenshots are exactly the offsets
`0, f 0, f² 0, …, fᵐ 0` visited, one per iteration. -/
theorem scrollGo_spec {f : Nat → Nat} :
    ∀ (m y : Nat) (acc : List Nat) (fuel : Nat),
      (∀ j, j < m → f (f^[j] y) ≠ f^[j] y) →
      f (f^[m] y) = f^[m] y →
      m + 1 ≤ fuel →
      scrollGo f fuel y acc =
        some (acc ++ (List.range (m + 1)).map (fun i => f^[i] y)) := by
  intro m
  induction m with
  | zero =>
    intro y acc fuel _ hfix hfuel
    obtain ⟨k, rfl⟩ : ∃ k, fuel = k + 1 := ⟨fuel - 1, by omega⟩
    simp only [Function.iterate_zero, id] at hfix
    simp [scrollGo, hfix, List.range_succ]
  | succ m ih =>
    intro y acc fuel hmin hfix hfuel
    obtain ⟨k, rfl⟩ : ∃ k, fuel = k + 1 := ⟨fuel - 1, by omega⟩
    have h0 : ¬(f y = y) := by
      have := hmin 0 (Nat.succ_pos m)
      simpa using this
    have hrec := ih (f y) (acc ++ [y]) k
      (fun j hj => by
        have := hmin (j + 1) (by omega)
        rwa [Function.iterate_succ_apply] at this)
      (by rw [← Function.iterate_succ_apply]; exact hfix)
      (by omega)
    simp only [scrollGo, if_neg h0]
    rw [hrec, List.append_assoc]
    congr 1
    rw [List.range_succ_eq_map (m + 1), List.map_cons, List.map_map]
    simp [Function.comp_def, Function.iterate_succ_apply, List.singleton_append]

/-- Whatever the page and fuel, a completed scroll loop has saved at least
the screenshot taken before the first scroll. -/
theorem scrollGo_ne_nil {f : Nat → Nat} :
    ∀ {fuel y : Nat} {acc l : List Nat},
      scrollGo f fuel y acc = some l → ∃ z zs, l = acc ++ z :: zs := by
  intro fuel
  induction fuel with
  | zero => intro y acc l h; simp [scrollGo] at h
  | succ k ih =>
    intro y acc l h
    simp only [scrollGo] at h
    by_cases hy : f y = y
    · rw [if_pos hy] at h
      simp only [Option.some.injEq] at h
      exact ⟨y, [], h.symm⟩
    · rw [if_neg hy] at h
      obtain ⟨z, zs, hz⟩ := ih h
      exact ⟨y, z :: zs, by rw [hz]; simp⟩

/-! ### Stitching support -/

/-- The paste loop places the `i`-th image at `x = 0` and `y` equal to the
running sum of the previous images' heights. -/
theorem pasteLoop_spec :
    ∀ (imgs : List Img) (y : Nat),
      pasteLoop imgs y = (List.range imgs.length).map
        (fun i => (0, y + ((imgs.take i).map Img.height).sum)) := by
  intro imgs
  induction imgs with
  | nil => intro y; simp [pasteLoop]
  | cons i rest ih =>
    intro y
    rw [pasteLoop, ih (y + i.height), List.length_cons,
      List.range_succ_eq_map, List.map_cons, List.map_map]
    congr 1
    apply List.map_congr_left
    intro j hj
    simp only [Function.comp_def, List.take_succ_cons, List.map_cons,
      List.sum_cons, Prod.mk.injEq, true_and]
    omega

/-- Python `max` over a non-empty width list, as the fold the code performs:
the result bounds every element, bounds the seed, and is one of them. -/
theorem foldl_max_spec :
    ∀ (l : List Img) (a : Nat),
      (l.foldl (fun acc i => Nat.max acc i.width) a = a ∨
        l.foldl (fun acc i => Nat.max acc i.width) a ∈ l.map Img.width) ∧
      a ≤ l.foldl (fun acc i => Nat.max acc i.width) a ∧
      ∀ w ∈ l.map Img.width, w ≤ l.foldl (fun acc i => Nat.max acc i.width) a := by
  intro l
  induction l with
  | nil => intro a; simp
  | cons i rest ih =>
    intro a
    obtain ⟨h1, h2, h3⟩ := ih (Nat.max a i.width)
    rw [List.foldl_cons]
    refine ⟨?_, ?_, ?_⟩
    · rcases h1 with h1 | h1
      · rw [h1]
        rcases Nat.le_total a i.width with hm | hm
        · right
          have hmx : Nat.max a i.width = i.width := by
            simp only [Nat.max_def]
            split <;> omega
          rw [hmx, List.map_cons]
          exact List.mem_cons_self _ _
        · left
          simp only [Nat.max_def]
          split <;> omega
      · right
        rw [List.map_cons]
        exact List.mem_cons_of_mem _ h1
    · refine le_trans ?_ h2
      simp only [Nat.max_def]
      split <;> omega
    · intro w hw
      rw [List.map_cons] at hw
      rcases List.mem_cons.mp hw with hw | hw
      · subst hw
        refine le_trans ?_ h2
        simp only [Nat.max_def]
        split <;> omega
      · exact h3 w hw

/-! ### Claim theorems -/

/-- C3: for every non-empty list of input images, `stitch_images_vertically`
produces an output whose width is the maximum of the input widths and whose
height is the sum of the input heights, pasting the `i`-th input at `x = 0`
and `y` equal to the sum of the heights of inputs `0..i-1`, in input order. -/
theorem claim_C3 (imgs : List Img) (hne : imgs ≠ []) :
    ∃ st, stitch_images_vertically imgs = some st ∧
      st.height = (imgs.map Img.height).sum ∧
      st.width ∈ imgs.map Img.width ∧
      (∀ w ∈ imgs.map Img.width, w ≤ st.width) ∧
      st.pastes = (List.range imgs.length).map
        (fun i => (0, ((imgs.take i).map Img.height).sum)) ∧
      st.pastes.length = imgs.length := by
  cases imgs with
  | nil => exact absurd rfl hne
  | cons i0 rest =>
    obtain ⟨h1, h2, h3⟩ := foldl_max_spec rest i0.width
    refine ⟨_, rfl, rfl, ?_, ?_, ?_, ?_⟩
    · show rest.foldl (fun a i => Nat.max a i.width) i0.width ∈
        (i0 :: rest).map Img.width
      rcases h1 with h1 | h1
      · rw [h1, List.map_cons]
        exact List.mem_cons_self _ _
      · rw [List.map_cons]
        exact List.mem_cons_of_mem _ h1
    · intro w hw
      rw [List.map_cons] at hw
      rcases List.mem_cons.mp hw with hw | hw
      · subst hw
        exact h2
      · exact h3 w hw
    · show pasteLoop (i0 :: rest) 0 = _
      rw [pasteLoop_spec]
      apply List.map_congr_left
      intro j hj
      simp
    · show (pasteLoop (i0 :: rest) 0).length = _
      rw [pasteLoop_spec]
      simp

/-- Witness for C3 at the concrete input `[2×3, 5×1]`. -/
theorem claim_C3_witness :
    ∃ st, stitch_images_vertically [⟨2, 3⟩, ⟨5, 1⟩] = some st ∧
      st.height = (([⟨2, 3⟩, ⟨5, 1⟩] : List Img).map Img.height).sum ∧
      st.width ∈ ([⟨2, 3⟩, ⟨5, 1⟩] : List Img).map Img.width ∧
      (∀ w ∈ ([⟨2, 3⟩, ⟨5, 1⟩] : List Img).map Img.width, w ≤ st.width) ∧
      st.pastes = (List.range ([⟨2, 3⟩, ⟨5, 1⟩] : List Img).length).map
        (fun i => (0, ((([⟨2, 3⟩, ⟨5, 1⟩] : List Img).take i).map Img.height).sum)) ∧
      st.pastes.length = ([⟨2, 3⟩, ⟨5, 1⟩] : List Img).length :=
  claim_C3 [⟨2, 3⟩, ⟨5, 1⟩] (by decide)

/-- C5: on every page where repeated scrolling eventually leaves the offset
unchanged (after `m` changing scrolls), `take_screenshots_scroll` terminates
and saves exactly one screenshot per loop iteration, the first at the top of
the page before any scroll and the last at the offset where scrolling
stopped. -/
theorem claim_C5 (f : Nat → Nat) (m fuel : Nat)
    (hmin : ∀ j, j < m → f (f^[j] 0) ≠ f^[j] 0)
    (hfix : f (f^[m] 0) = f^[m] 0)
    (hfuel : m + 1 ≤ fuel) :
    take_screenshots_scroll f fuel =
      some ((List.range (m + 1)).map (fun i => f^[i] 0)) ∧
    ((List.range (m + 1)).map (fun i => f^[i] 0)).length = m + 1 ∧
    ((List.range (m + 1)).map (fun i => f^[i] 0)).head? = some 0 ∧
    ((List.range (m + 1)).map (fun i => f^[i] 0)).getLast? = some (f^[m] 0) := by
  refine ⟨?_, by simp, ?_, ?_⟩
  · unfold take_screenshots_scroll
    simpa using scrollGo_spec m 0 [] fuel hmin hfix hfuel
  · rw [List.range_succ_eq_map]
    simp
  · rw [List.range_succ]
    simp

/-- Witness for C5 on the page model `y ↦ min (y + 3) 7`, which scrolls
`0, 3, 6, 7` and then sticks. -/
theorem claim_C5_witness :
    take_screenshots_scroll (fun y => Nat.min (y + 3) 7) 4 =
      some ((List.range (3 + 1)).map (fun i => (fun y => Nat.min (y + 3) 7)^[i] 0)) ∧
    ((List.range (3 + 1)).map (fun i => (fun y => Nat.min (y + 3) 7)^[i] 0)).length = 3 + 1 ∧
    ((List.range (3 + 1)).map (fun i => (fun y => Nat.min (y + 3) 7)^[i] 0)).head? = some 0 ∧
    ((List.range (3 + 1)).map (fun i => (fun y => Nat.min (y + 3) 7)^[i] 0)).getLast? =
      some ((fun y => Nat.min (y + 3) 7)^[3] 0) :=
  claim_C5 (fun y => Nat.min (y + 3) 7) 3 4 (by decide) (by decide) (by decide)

/-- C8: whenever `take_screenshots_scroll` returns, its screenshot list is
non-empty (the first screenshot is saved before the exit test can fire), so
`stitch_images_vertically` is never given an empty list by `fill_survey` and
its `max`/`zip` cannot fail there. -/
theorem claim_C8 (f : Nat → Nat) (fuel : Nat) (l : List Nat)
    (h : take_screenshots_scroll f fuel = some l) :
    l ≠ [] ∧ ∀ g : Nat → Img, (stitch_images_vertically (l.map g)).isSome = true := by
  obtain ⟨z, zs, hz⟩ := scrollGo_ne_nil h
  rw [List.nil_append] at hz
  subst hz
  refine ⟨by simp, fun g => ?_⟩
  rw [List.map_cons]
  rfl

/-- Witness for C8 on a page that never scrolls. -/
theorem claim_C8_witness :
    ([0] : List Nat) ≠ [] ∧
    ∀ g : Nat → Img, (stitch_images_vertically (([0] : List Nat).map g)).isSome = true :=
  claim_C8 (fun _ => 0) 1 [0] (by decide)

/-- C1: for a `cbc_task` question, whatever integer `n` the model replies,
the `task_select_button` child at index `n - 1` is clicked with no range
check, and for a `select` question `select_by_value(str(n))` is issued with
no check that such an option exists; the index access lands on the `n`-th
button (the option the reply names) exactly when `1 ≤ n ≤ numButtons`, a
precondition never checked. -/
theorem claim_C1 (q qs : Question) (a : Api) (n : Int)
    (msgs : List Message) (content : List ContentPart) (effs : List Effect)
    (hq : q.qtype = QType.cbc_task) (hs : qs.qtype = QType.selectTag)
    (hn : answer_survey_choice a.reply = some n) :
    emittedDom (processQuestion q a msgs content effs) =
      some (DomAction.clickTaskButton (n - 1)) ∧
    emittedDom (processQuestion qs a msgs content effs) =
      some (DomAction.selectByValue (toString n)) ∧
    ((∃ j : Nat, pyIdx q.numButtons (n - 1) = some j ∧ (j : Int) = n - 1) ↔
      (1 ≤ n ∧ n ≤ (q.numButtons : Int))) := by
  refine ⟨?_, ?_, ?_, ?_⟩
  · simp [processQuestion, hq, hn, emittedDom, List.getLast?_concat]
  · simp [processQuestion, hs, hn, emittedDom, List.getLast?_concat]
  · rintro ⟨j, hj, hj2⟩
    unfold pyIdx at hj
    by_cases hc1 : (0 : Int) ≤ n - 1
    · rw [if_pos hc1] at hj
      by_cases hc2 : n - 1 < (q.numButtons : Int)
      · rw [if_pos hc2] at hj
        constructor <;> omega
      · rw [if_neg hc2] at hj
        exact Option.noConfusion hj
    · rw [if_neg hc1] at hj
      by_cases hc2 : -(n - 1) ≤ (q.numButtons : Int)
      · rw [if_pos hc2] at hj
        simp only [Option.some.injEq] at hj
        subst hj
        rw [Int.toNat_of_nonneg (by omega)] at hj2
        omega
      · rw [if_neg hc2] at hj
        exact Option.noConfusion hj
  · rintro ⟨h1, h2⟩
    refine ⟨(n - 1).toNat, ?_, ?_⟩
    · unfold pyIdx
      rw [if_pos (by omega : (0 : Int) ≤ n - 1),
        if_pos (by omega : n - 1 < (q.numButtons : Int))]
    · rw [Int.toNat_of_nonneg (by omega)]

/-- Witness for C1: model reply `2` on a three-button `cbc_task` question
and a `select` question. -/
theorem claim_C1_witness :
    emittedDom (processQuestion ⟨QType.cbc_task, "IH", "OH", 0, 0, 3⟩ ⟨"2", "S"⟩ [] [] []) =
      some (DomAction.clickTaskButton ((2 : Int) - 1)) ∧
    emittedDom (processQuestion ⟨QType.selectTag, "IH2", "OH2", 0, 0, 0⟩ ⟨"2", "S"⟩ [] [] []) =
      some (DomAction.selectByValue (toString (2 : Int))) ∧
    ((∃ j : Nat, pyIdx (Question.mk QType.cbc_task ("IH") ("OH") 0 0 3).numButtons ((2 : Int) - 1) =
        some j ∧ (j : Int) = (2 : Int) - 1) ↔
      (1 ≤ (2 : Int) ∧ (2 : Int) ≤ ((Question.mk QType.cbc_task ("IH") ("OH") 0 0 3).numButtons : Int))) :=
  claim_C1 ⟨QType.cbc_task, "IH", "OH", 0, 0, 3⟩ ⟨QType.selectTag, "IH2", "OH2", 0, 0, 0⟩
    ⟨"2", "S"⟩ 2 [] [] [] rfl rfl (by decide)

/-- C2: every question element is handled by exactly one of the five fixed
branches chosen by its DOM class or tag; the `cbc_task`, `select` and
`response_column` branches parse the API reply with `int()` (raising on a
non-integer reply), while `question numeric` and `textarea` type the text
reply into the control verbatim. -/
theorem claim_C2 (q : Question) (a : Api) (msgs : List Message)
    (content : List ContentPart) (effs : List Effect) :
    ((q.qtype = QType.cbc_task ∨ q.qtype = QType.selectTag ∨
        q.qtype = QType.responseColumn) →
      (processQuestion q a msgs content effs = none ↔
        answer_survey_choice a.reply = none)) ∧
    (∀ n, answer_survey_choice a.reply = some n →
      (q.qtype = QType.cbc_task →
        emittedDom (processQuestion q a msgs content effs) =
          some (DomAction.clickTaskButton (n - 1))) ∧
      (q.qtype = QType.selectTag →
        emittedDom (processQuestion q a msgs content effs) =
          some (DomAction.selectByValue (toString n))) ∧
      (q.qtype = QType.responseColumn →
        emittedDom (processQuestion q a msgs content effs) =
          some DomAction.clickElement)) ∧
    (q.qtype = QType.questionNumeric →
      emittedDom (processQuestion q a msgs content effs) =
        some (DomAction.sendKeysInput (answer_survey_other a.reply))) ∧
    (q.qtype = QType.textareaTag →
      emittedDom (processQuestion q a msgs content effs) =
        some (DomAction.sendKeysTextarea (answer_survey_other a.reply))) ∧
    (∀ act, emittedDom (processQuestion q a msgs content effs) = some act →
      domTag act = q.qtype) := by
  refine ⟨?_, ?_, ?_, ?_, ?_⟩
  · intro hq
    rcases hq with hq | hq | hq <;>
      cases hc : answer_survey_choice a.reply <;>
        simp [processQuestion, hq, hc]
  · intro n hn
    refine ⟨?_, ?_, ?_⟩ <;> intro hq <;>
      simp [processQuestion, hq, hn, emittedDom, List.getLast?_concat]
  · intro hq
    simp [processQuestion, hq, emittedDom, List.getLast?_concat]
  · intro hq
    simp [processQuestion, hq, emittedDom, List.getLast?_concat]
  · intro act hact
    cases hq : q.qtype
    case cbc_task =>
      cases hc : answer_survey_choice a.reply with
      | none => simp [processQuestion, hq, hc, emittedDom] at hact
      | some n =>
        simp only [processQuestion, hq, hc, emittedDom,
          List.getLast?_concat, Option.some.injEq] at hact
        subst hact
        rfl
    case selectTag =>
      cases hc : answer_survey_choice a.reply with
      | none => simp [processQuestion, hq, hc, emittedDom] at hact
      | some n =>
        simp only [processQuestion, hq, hc, emittedDom,
          List.getLast?_concat, Option.some.injEq] at hact
        subst hact
        rfl
    case questionNumeric =>
      simp only [processQuestion, hq, emittedDom,
        List.getLast?_concat, Option.some.injEq] at hact
      subst hact
      rfl
    case responseColumn =>
      cases hc : answer_survey_choice a.reply with
      | none => simp [processQuestion, hq, hc, emittedDom] at hact
      | some n =>
        simp only [processQuestion, hq, hc, emittedDom,
          List.getLast?_concat, Option.some.injEq] at hact
        subst hact
        rfl
    case textareaTag =>
      simp only [processQuestion, hq, emittedDom,
        List.getLast?_concat, Option.some.injEq] at hact
      subst hact
      rfl

/-- Witness for C2: a `textarea` question whose text reply is typed
verbatim, and the dispatch facts at that concrete input. -/
theorem claim_C2_witness :
    ((Question.mk QType.textareaTag ("IH") ("OH") 0 0 0).qtype = QType.textareaTag →
      emittedDom (processQuestion ⟨QType.textareaTag, "IH", "OH", 0, 0, 0⟩
          ⟨"free text", "S"⟩ [] [] []) =
        some (DomAction.sendKeysTextarea (answer_survey_other ("free text")))) ∧
    ∀ act, emittedDom (processQuestion ⟨QType.textareaTag, "IH", "OH", 0, 0, 0⟩
        ⟨"free text", "S"⟩ [] [] []) = some act →
      domTag act = (Question.mk QType.textareaTag ("IH") ("OH") 0 0 0).qtype :=
  ⟨(claim_C2 ⟨QType.textareaTag, "IH", "OH", 0, 0, 0⟩ ⟨"free text", "S"⟩ [] [] []).2.2.2.1,
    (claim_C2 ⟨QType.textareaTag, "IH", "OH", 0, 0, 0⟩ ⟨"free text", "S"⟩ [] [] []).2.2.2.2⟩

/-- The assistant messages appended by a question loop run number one per
question. -/
theorem assistantsFrom_length (api : Nat → Api) :
    ∀ (k i : Nat), (assistantsFrom api i k).length = k := by
  intro k
  induction k with
  | zero => intro i; rfl
  | succ k ih => intro i; simp [assistantsFrom, ih (i + 1)]

/-- Every message appended by the question loop has role `assistant`. -/
theorem assistantsFrom_roles (api : Nat → Api) :
    ∀ (k i : Nat) (x : Message), x ∈ assistantsFrom api i k →
      x.role = "assistant" := by
  intro k
  induction k with
  | zero => intro i x hx; simp [assistantsFrom] at hx
  | succ k ih =>
    intro i x hx
    rcases List.mem_cons.mp hx with hx | hx
    · rw [hx]
    · exact ih (i + 1) x hx

/-- The question loop appends at least one message when there is at least
one question. -/
theorem assistantsFrom_ne_nil (api : Nat → Api) (i k : Nat) :
    assistantsFrom api i (k + 1) ≠ [] := by
  simp [assistantsFrom]

/-- C10: processing a question changes the message thread by exactly one net
entry: the user message carrying the question HTML is appended, then removed
after the API call, and a single assistant summary message is appended; so
after every answered question the thread ends in an assistant message, and
the thread dumped to `messages.json` contains no leftover raw-HTML question
message (every message is an original one or an assistant summary). -/
theorem claim_C10 :
    (∀ (q : Question) (a : Api) (msgs : List Message)
        (content : List ContentPart) (effs : List Effect)
        (r : List Message × List ContentPart × List Effect),
      processQuestion q a msgs content effs = some r →
      r.1 = msgs ++ [⟨"assistant", MContent.str a.summary⟩] ∧
      (r.1.getLast?).map Message.role = some ("assistant")) ∧
    (∀ (api : Nat → Api) (qs : List Question) (i : Nat) (msgs : List Message)
        (content : List ContentPart) (effs : List Effect)
        (m : List Message) (c : List ContentPart) (e : List Effect),
      processQuestions api qs i msgs content effs = some (m, c, e) →
      m = msgs ++ assistantsFrom api i qs.length ∧
      m.length = msgs.length + qs.length ∧
      (∀ x ∈ m, x ∈ msgs ∨ x.role = "assistant") ∧
      (qs ≠ [] → (m.getLast?).map Message.role = some ("assistant"))) := by
  constructor
  · intro q a msgs content effs r h
    obtain ⟨callE, ansStr, act, hr, hcall⟩ := processQuestion_shape h
    subst hr
    exact ⟨rfl, by simp [List.getLast?_concat]⟩
  · intro api qs i msgs content effs m c e h
    obtain ⟨hm, _, _, _⟩ := processQuestions_spec h
    subst hm
    refine ⟨rfl, by simp [assistantsFrom_length], ?_, ?_⟩
    · intro x hx
      rcases List.mem_append.mp hx with hx | hx
      · exact Or.inl hx
      · exact Or.inr (assistantsFrom_roles api qs.length i x hx)
    · intro hne
      obtain ⟨q0, qrest, hq⟩ := List.exists_cons_of_ne_nil hne
      rw [hq, List.length_cons, List.getLast?_append]
      obtain ⟨x, hx⟩ : ∃ x, (assistantsFrom api i (qrest.length + 1)).getLast? = some x := by
        cases hgl : (assistantsFrom api i (qrest.length + 1)).getLast? with
        | none =>
          exact absurd (List.getLast?_eq_none_iff.mp hgl)
            (assistantsFrom_ne_nil api i qrest.length)
        | some x => exact ⟨x, rfl⟩
      rw [hx]
      have hxr := assistantsFrom_roles api (qrest.length + 1) i x
        (List.mem_of_mem_getLast? (by rw [hx]; rfl))
      simp [Option.or, hxr]


/-- Witness inputs: a concrete `cbc_task` question, API oracle and pages. -/
def sampleCbc : Question :=
  ⟨QType.cbc_task, "IH", "OH", 0, 0, 3⟩

/-- A one-question page whose model reply is `2`. -/
def samplePage : PageEnv :=
  ⟨fun _ => 0, 1, fun _ => ⟨4, 5⟩, "B", [sampleCbc], fun _ => ⟨"2", "S"⟩, false⟩

/-- A question-free page, with or without a working `next_button`. -/
def emptyPage (b : Bool) : PageEnv :=
  ⟨fun _ => 0, 1, fun _ => ⟨4, 5⟩, "B", [], fun _ => ⟨"1", "S"⟩, b⟩

/-- A page on which the screenshot loop never stops (no fuel). -/
def stuckPage : PageEnv :=
  ⟨fun _ => 0, 0, fun _ => ⟨4, 5⟩, "B", [], fun _ => ⟨"1", "S"⟩, true⟩

/-- The screenshot-only user message recorded on a question-free page. -/
def imgUserMsg : Message :=
  ⟨"user", MContent.parts [ContentPart.imageURL ("data:image/jpeg;base64," ++ "B")]⟩

/-- The effect block of answering `sampleCbc` with reply `1`. -/
def sampleBlock : List Effect :=
  [Effect.apiChoiceCall [⟨"user", MContent.parts [ContentPart.textPart (questionPrompt ("IH"))]⟩],
   Effect.apiSummaryCall ("IH") ("1"),
   Effect.dom (DomAction.clickTaskButton 0)]

/-- The full result of one `processQuestion` run on `sampleCbc`. -/
def sampleRes : List Message × List ContentPart × List Effect :=
  ([⟨"assistant", MContent.str ("S")⟩], [], sampleBlock)

/-- The message thread after the one-question page `samplePage`. -/
def samplePageMsgs : List Message :=
  [⟨"assistant", MContent.str ("S")⟩]

/-- The effect trace of the one-question page `samplePage`. -/
def samplePageEffects : List Effect :=
  [Effect.saveScreenshot 0, Effect.saveStitched 4 5,
   Effect.apiChoiceCall
     [⟨"user", MContent.parts [pageImagePart samplePage,
        ContentPart.textPart (questionPrompt ("IH"))]⟩],
   Effect.apiSummaryCall ("IH") ("2"),
   Effect.dom (DomAction.clickTaskButton 1),
   Effect.writeMessagesJson [⟨"assistant", MContent.str ("S")⟩]]

/-- The effect trace of one completed question-free page without a next
click. -/
def emptyPageEffects : List Effect :=
  [Effect.saveScreenshot 0, Effect.saveStitched 4 5,
   Effect.writeMessagesJson [imgUserMsg]]

/-- The effect trace of the two-page run `[emptyPage true, emptyPage false]`. -/
def twoPageEffects : List Effect :=
  [Effect.saveScreenshot 0, Effect.saveStitched 4 5,
   Effect.writeMessagesJson [imgUserMsg], Effect.clickNextButton,
   Effect.saveScreenshot 0, Effect.saveStitched 4 5,
   Effect.writeMessagesJson [imgUserMsg, imgUserMsg]]

/-- Witness for C10 on `sampleCbc` with reply `1`. -/
theorem claim_C10_witness :
    (sampleRes.1 = [] ++ [⟨"assistant", MContent.str (Api.mk ("1") ("S")).summary⟩] ∧
      (sampleRes.1.getLast?).map Message.role = some ("assistant")) ∧
    (samplePageMsgs = [] ++ assistantsFrom (fun _ => Api.mk ("1") ("S")) 0 [sampleCbc].length ∧
      samplePageMsgs.length = List.length ([] : List Message) + [sampleCbc].length ∧
      (∀ x ∈ samplePageMsgs, x ∈ ([] : List Message) ∨ x.role = "assistant") ∧
      ([sampleCbc] ≠ [] → (samplePageMsgs.getLast?).map Message.role = some ("assistant"))) :=
  ⟨claim_C10.1 sampleCbc ⟨"1", "S"⟩ [] [] [] sampleRes (by decide),
   claim_C10.2 (fun _ => ⟨"1", "S"⟩) [sampleCbc] 0 [] [] [] samplePageMsgs [] sampleBlock
     (by decide)⟩

/-- The lexicographic position order is transitive. -/
theorem posLe_trans :
    ∀ a b c : Question, posLe a b → posLe b c → posLe a c := by
  intro a b c hab hbc
  simp only [posLe, decide_eq_true_eq] at *
  rcases hab with h | ⟨h1, h2⟩ <;> rcases hbc with h3 | ⟨h3, h4⟩ <;> omega

/-- The lexicographic position order is total. -/
theorem posLe_total : ∀ a b : Question, posLe a b || posLe b a := by
  intro a b
  simp only [posLe, Bool.or_eq_true, decide_eq_true_eq]
  omega

/-- C4: the questions of a page are processed in ascending `(y, x)` screen
position: `sortQuestions` permutes the detected questions into
position-sorted order, and a page run consults `summarize_answer` (one call
per question) exactly in that sorted order, the only reordering applied. -/
theorem claim_C4 (qs : List Question) (p : PageEnv) (msgs : List Message)
    (effs : List Effect) (m : List Message) (e : List Effect) (cont : Bool) :
    (sortQuestions qs).Perm qs ∧
    List.Pairwise (fun a b => posLe a b = true) (sortQuestions qs) ∧
    (processPage p msgs effs = some (m, e, cont) →
      summaryTrace e = summaryTrace effs ++ (sortQuestions p.questions).map htmlOf) := by
  refine ⟨List.mergeSort_perm qs posLe, ?_, ?_⟩
  · exact List.sorted_mergeSort posLe_trans posLe_total qs
  · intro h
    exact (processPage_spec h).2.2.2.2.1

unseal List.merge List.mergeSort in
/-- Witness for C4 on the concrete one-question page `samplePage`. -/
theorem claim_C4_witness :
    (sortQuestions [sampleCbc]).Perm [sampleCbc] ∧
    List.Pairwise (fun a b => posLe a b = true) (sortQuestions [sampleCbc]) ∧
    summaryTrace samplePageEffects =
      summaryTrace [] ++ (sortQuestions samplePage.questions).map htmlOf :=
  ⟨(claim_C4 [sampleCbc] samplePage [] [] samplePageMsgs samplePageEffects false).1,
   (claim_C4 [sampleCbc] samplePage [] [] samplePageMsgs samplePageEffects false).2.1,
   (claim_C4 [sampleCbc] samplePage [] [] samplePageMsgs samplePageEffects false).2.2
     (by decide)⟩

/-- The per-page request contents with an exhausted buffer are text-only. -/
theorem pageRequestContents_nil_buffer :
    ∀ (qs : List Question),
      pageRequestContents [] qs =
        qs.map (fun q => [ContentPart.textPart (questionPrompt (htmlOf q))]) := by
  intro qs
  cases qs with
  | nil => rfl
  | cons q rest => simp [pageRequestContents, pageRequestContents_nil_buffer rest]

/-- C9: on a page with at least one question, only the first processed
question's API request carries the stitched page screenshot; every later
request on the page is text-only, the shared content buffer having been
reset after each answered question. -/
theorem claim_C9 (p : PageEnv) (msgs : List Message) (effs : List Effect)
    (m : List Message) (e : List Effect) (cont : Bool)
    (h : processPage p msgs effs = some (m, e, cont)) (hq : p.questions ≠ []) :
    ∃ q0 rest, sortQuestions p.questions = q0 :: rest ∧
      requestTrace e = requestTrace effs ++
        ([pageImagePart p, ContentPart.textPart (questionPrompt (htmlOf q0))] ::
          rest.map (fun q => [ContentPart.textPart (questionPrompt (htmlOf q))])) ∧
      ∀ l ∈ rest.map (fun q => [ContentPart.textPart (questionPrompt (htmlOf q))]),
        ∀ cp ∈ l, ∀ u, cp ≠ ContentPart.imageURL u := by
  have hsne : sortQuestions p.questions ≠ [] := by
    intro hc
    have := List.mergeSort_perm p.questions posLe
    rw [sortQuestions] at hc
    rw [hc] at this
    exact hq (this.nil_eq).symm
  obtain ⟨q0, rest, hq0⟩ := List.exists_cons_of_ne_nil hsne
  refine ⟨q0, rest, hq0, ?_, ?_⟩
  · have hreq := (processPage_spec h).2.2.1 hq
    rw [hreq, hq0, pageRequestContents, pageRequestContents_nil_buffer]
    simp
  · intro l hl cp hcp u
    obtain ⟨qq, _, hqq⟩ := List.mem_map.mp hl
    subst hqq
    rcases List.mem_singleton.mp hcp with rfl
    simp

unseal List.merge List.mergeSort in
/-- Witness for C9 on the concrete one-question page `samplePage`. -/
theorem claim_C9_witness :
    ∃ q0 rest, sortQuestions samplePage.questions = q0 :: rest ∧
      requestTrace samplePageEffects = requestTrace [] ++
        ([pageImagePart samplePage, ContentPart.textPart (questionPrompt (htmlOf q0))] ::
          rest.map (fun q => [ContentPart.textPart (questionPrompt (htmlOf q))])) ∧
      ∀ l ∈ rest.map (fun q => [ContentPart.textPart (questionPrompt (htmlOf q))]),
        ∀ cp ∈ l, ∀ u, cp ≠ ContentPart.imageURL u :=
  claim_C9 samplePage [] [] samplePageMsgs samplePageEffects false (by decide) (by decide)

/-- C6: failure handling is log-and-abort with no retries: when the
`next_button` wait fails on a page, the loop exits there and the remaining
pages are never touched; on the run up to that page every page's operations
happened exactly once (`messages.json` written once per page, `next_button`
clicked once per non-final page); and a failed page iteration aborts the run
outright. -/
theorem claim_C6 (done : List PageEnv) (p : PageEnv) (rest : List PageEnv)
    (msgs : List Message) (effs : List Effect)
    (hdone : ∀ q ∈ done, q.hasNext = true) (hp : p.hasNext = false) :
    fillSurvey (done ++ p :: rest) msgs effs =
      fillSurvey (done ++ [p]) msgs effs ∧
    (∀ m e, fillSurvey (done ++ p :: rest) msgs effs = some (m, e) →
      countJson e = countJson effs + done.length + 1 ∧
      countNext e = countNext effs + done.length) ∧
    (∀ (p2 : PageEnv) (rest2 : List PageEnv),
      processPage p2 msgs effs = none →
      fillSurvey (p2 :: rest2) msgs effs = none) := by
  refine ⟨fillSurvey_stop hdone hp, fun m e h => fillSurvey_counts hdone hp h, ?_⟩
  intro p2 rest2 hn
  simp only [fillSurvey, hn]

/-- Witness for C6 on a three-page run stopping at the second page, plus a
page whose screenshot loop aborts the run. -/
theorem claim_C6_witness :
    fillSurvey ([emptyPage true] ++ emptyPage false :: [emptyPage true]) [] [] =
      fillSurvey ([emptyPage true] ++ [emptyPage false]) [] [] ∧
    (countJson twoPageEffects = countJson [] + [emptyPage true].length + 1 ∧
      countNext twoPageEffects = countNext [] + [emptyPage true].length) ∧
    fillSurvey (stuckPage :: []) [] [] = none :=
  ⟨(claim_C6 [emptyPage true] (emptyPage false) [emptyPage true] [] []
      (fun q hq => by rw [List.mem_singleton.mp hq]; rfl) rfl).1,
   (claim_C6 [emptyPage true] (emptyPage false) [emptyPage true] [] []
      (fun q hq => by rw [List.mem_singleton.mp hq]; rfl) rfl).2.1
     [imgUserMsg, imgUserMsg] twoPageEffects (by decide),
   (claim_C6 [emptyPage true] (emptyPage false) [emptyPage true] [] []
      (fun q hq => by rw [List.mem_singleton.mp hq]; rfl) rfl).2.2
     stuckPage [] (by decide)⟩

/-- C7: within every page iteration the effects occur in the fixed stage
order screenshots → stitched save → per-question (API call, summary call,
DOM injection) → `messages.json` dump → `next_button` click, and the traces
of successive pages (and of successive CSV-row users) are concatenated
strictly sequentially, never interleaved. -/
theorem claim_C7 (pages : List PageEnv) (msgs : List Message)
    (effs : List Effect) (m : List Message) (e : List Effect)
    (users : List (List PageEnv × List Message)) (effs2 e2 : List Effect) :
    (fillSurvey pages msgs effs = some (m, e) →
      ∃ ts : List (List Effect), e = effs ++ ts.flatten ∧ ∀ t ∈ ts, IsPageTrace t) ∧
    (runUsers users effs2 = some e2 →
      ∃ ts : List (List Effect), e2 = effs2 ++ ts.flatten ∧ ∀ t ∈ ts, IsPageTrace t) :=
  ⟨fillSurvey_trace, runUsers_trace⟩

/-- Witness for C7 on a one-page, one-user run. -/
theorem claim_C7_witness :
    (∃ ts : List (List Effect), emptyPageEffects = [] ++ ts.flatten ∧
      ∀ t ∈ ts, IsPageTrace t) ∧
    (∃ ts : List (List Effect), emptyPageEffects = [] ++ ts.flatten ∧
      ∀ t ∈ ts, IsPageTrace t) :=
  ⟨(claim_C7 [emptyPage false] [] [] [imgUserMsg] emptyPageEffects
      [([emptyPage false], [])] [] emptyPageEffects).1 (by decide),
   (claim_C7 [emptyPage false] [] [] [imgUserMsg] emptyPageEffects
      [([emptyPage false], [])] [] emptyPageEffects).2 (by decide)⟩


end Survey
